import Mathlib

/-
Verification of the core buffer components of rexlibris (rexlibris.py):
the deduplicating result pool (`ResultPool`) and the random word supply
(`WordSupply`).  The Python code is shallowly embedded: each stateful
object becomes a structure, each method a pure function on that
structure; the random choices made by `random.randrange` and
`random.choice` become explicit numeric parameters (an index is always
reduced modulo the relevant length, which covers exactly the values
`randrange` can produce); the outcomes of network fetches become
explicit list parameters (a failed fetch is the empty list, exactly how
the code collapses errors).  Strings drawn from the word APIs are
modelled as lists of Unicode code points (Nat), so that the ASCII
case-mapping done by `str.lower` is explicit arithmetic; record
identifiers stay ordinary strings.
-/

/-- The `LibraryConfig` dataclass: six string fields, structural
equality (Python dataclass `==`). -/
structure LibraryConfig where
  name : String
  base_url : String
  vid : String
  tab : String
  scope : String
  institution : String
deriving DecidableEq, Repr

/-- A raw record (`doc`) returned by the search service.  For pool
purposes only the nested list `pnx.control.recordid` matters; a missing
path is the empty list (the chained `.get(..., {})` defaults).  The
`payload` field stands for all the other content of the dict, so two
records with the same identifier can still differ. -/
structure Doc where
  recordid : List String
  payload : Nat
deriving DecidableEq, Repr

/-- Python helper `_record_id(doc)`: `ids[0] if ids else None` applied
to `doc["pnx"]["control"]["recordid"]`. -/
def record_id (d : Doc) : Option String := d.recordid.head?

/-- The identifier as the pool sees it: `_record_id` composed with the
truthiness test `if rid` used in `_add_docs` — Python treats both
`None` and the empty string as falsy, so an empty-string identifier is
not extractable. -/
def poolable_id (d : Doc) : Option String :=
  match record_id d with
  | some rid => if rid = "" then none else some rid
  | none => none

/-- State of `ResultPool`: the record buffer `_items`, the identifier
set `_seen`, the construction parameters `_target` and `_low`, the
single-flight `_filling` flag and the active material-type filter
`_type`.  The worker count only bounds thread-level parallelism and has
no effect on the state transitions, so it is omitted. -/
structure ResultPool where
  config : LibraryConfig
  items : List Doc
  seen : Finset String
  target : Nat
  low : Nat
  filling : Bool
  mtype : Option String

/-- `ResultPool.__init__(config, target, low_water, workers)`: empty
buffer, empty identifier set, flag down, no material type.  The source
defaults are `target=150`, `low_water=30`. -/
def mkPool (config : LibraryConfig) (target : Nat) (low : Nat) : ResultPool :=
  ⟨config, [], ∅, target, low, false, none⟩

/-- `ResultPool.size()`. -/
def ResultPool.size (s : ResultPool) : Nat := s.items.length

/-- `ResultPool.clear()`: empties `_items` and `_seen`, nothing else. -/
def ResultPool.clear (s : ResultPool) : ResultPool :=
  { s with items := [], seen := ∅ }

/-- The `config` property setter: on a different value, store it and
call `clear()`; otherwise do nothing. -/
def set_config (s : ResultPool) (value : LibraryConfig) : ResultPool :=
  if value ≠ s.config then ResultPool.clear { s with config := value } else s

/-- The `material_type` property setter: on a different value, store it
and call `clear()`; otherwise do nothing. -/
def set_material_type (s : ResultPool) (value : Option String) : ResultPool :=
  if value ≠ s.mtype then ResultPool.clear { s with mtype := value } else s

/-- Loop body of `ResultPool._add_docs`: `rid = _record_id(d)`, then
`if rid and rid not in self._seen: self._seen.add(rid);
self._items.append(d)`. -/
def add_doc (s : ResultPool) (d : Doc) : ResultPool :=
  match record_id d with
  | some rid =>
      if rid ≠ "" ∧ rid ∉ s.seen then
        { s with seen := insert rid s.seen, items := s.items ++ [d] }
      else s
  | none => s

/-- `ResultPool._add_docs(docs)`: the loop over `docs`. -/
def add_docs (s : ResultPool) (docs : List Doc) : ResultPool :=
  docs.foldl add_doc s

/-- The swap-with-last-and-remove step shared by `ResultPool.take` and
`WordSupply.get`:
`l[i], l[-1] = l[-1], l[i]; x = l.pop()`.  Returns the extracted
element (the one originally at index `i`) and the remaining list. -/
def popAt {α : Type} (l : List α) (i : Nat) (dflt : α) : α × List α :=
  (l.getD i dflt, (l.set i (l.getLastD dflt)).dropLast)

/-- Default element fed to `popAt` on `Doc` lists (never reached while
the list is nonempty and the index is in range). -/
def defaultDoc : Doc := ⟨[], 0⟩

/-- The loop of `ResultPool.take`: `k` remaining iterations, `rand`
supplies the successive `random.randrange(len(items))` draws (reduced
modulo the current length), `items` the buffer, `picked` the
accumulator.  The `if not self._items: break` guard is kept. -/
def take_aux : Nat → List Nat → List Doc → List Doc → List Doc × List Doc
  | 0, _, items, picked => (picked, items)
  | k + 1, rand, items, picked =>
      if items = [] then (picked, items)
      else
        let idx := rand.headD 0 % items.length
        let p := popAt items idx defaultDoc
        take_aux k rand.tail p.2 (picked ++ [p.1])

/-- `ResultPool.take(n)`: `n = min(n, len(self._items))`, then `n`
rounds of swap-with-last-and-remove.  `n` is an `Int` because Python
callers may pass a negative count (`range` of a negative number is
empty, hence `.toNat`).  Returns the picked records and the new
state. -/
def ResultPool.take (s : ResultPool) (n : Int) (rand : List Nat) :
    List Doc × ResultPool :=
  let m := (min n (s.items.length : Int)).toNat
  let p := take_aux m rand s.items []
  (p.1, { s with items := p.2 })

/-- The batch count computed at the top of `ResultPool._fill`:
`max(3, (self._target - self.size()) // 20)`.  Python `//` is floor
division, `Int.fdiv` in Lean. -/
def num_batches (s : ResultPool) : Nat :=
  (max 3 (((s.target : Int) - (s.size : Int)).fdiv 20)).toNat

/-- `ResultPool._fill`: dispatches one `_fetch_batch` task per batch and
merges each completed result via `_add_docs` (skipping empty results,
per `if docs:`); the `finally` clause lowers the `_filling` flag.
`results` lists the records returned by the dispatched tasks in
completion order; a failed task contributes `[]`.  Theorems about
`fill` constrain `results.length` to `num_batches`. -/
def fill (s : ResultPool) (results : List (List Doc)) : ResultPool :=
  { results.foldl (fun st docs => if docs = [] then st else add_docs st docs) s
      with filling := false }

/-- `ResultPool.fill_async()`: returns unchanged if `self._filling or
self.size() >= self._target`; otherwise raises the flag and starts one
background `_fill`.  The boolean records whether a fill was started. -/
def fill_async (s : ResultPool) : ResultPool × Bool :=
  if s.filling = true ∨ s.target ≤ s.size then (s, false)
  else ({ s with filling := true }, true)

/-- Pool states reachable from a fresh pool by the public operations:
the two setters, `clear`, `take`, the merge step of a fill, a whole
fill, and `fill_async`. -/
inductive Reachable : ResultPool → Prop
  | init (config : LibraryConfig) (target low : Nat) :
      Reachable (mkPool config target low)
  | set_config (s : ResultPool) (v : LibraryConfig) :
      Reachable s → Reachable (set_config s v)
  | set_material_type (s : ResultPool) (v : Option String) :
      Reachable s → Reachable (set_material_type s v)
  | clear (s : ResultPool) : Reachable s → Reachable s.clear
  | take (s : ResultPool) (n : Int) (rand : List Nat) :
      Reachable s → Reachable (s.take n rand).2
  | merge (s : ResultPool) (docs : List Doc) :
      Reachable s → Reachable (add_docs s docs)
  | fill (s : ResultPool) (results : List (List Doc)) :
      Reachable s → Reachable (fill s results)
  | fill_async (s : ResultPool) : Reachable s → Reachable (fill_async s).1

/-- A word from the word APIs, as its list of Unicode code points.
Python string operations used by the supply (`len`, `isalpha`,
`lower`, equality) act on code points, and the ASCII case mapping
becomes plain arithmetic. -/
abbrev Word : Type := List Nat

/-- Converts a Lean string literal to its code-point word, used to
transcribe the word lists that appear literally in the source. -/
def strWord (s : String) : Word := s.data.map Char.toNat

/-- `WordSupply._FALLBACK`, the built-in word list. -/
def FALLBACK : List Word :=
  ["history", "science", "world", "nature", "human", "society", "culture",
   "language", "music", "philosophy", "politics", "economics", "psychology",
   "biology", "physics", "chemistry", "mathematics", "literature", "poetry",
   "fiction", "theory", "modern", "ancient", "art", "design", "education",
   "technology", "environment", "health", "medicine", "travel", "adventure"
  ].map strWord

/-- `WordSupply._LOW`, the low-water mark of the word buffer. -/
def WORD_LOW : Nat := 20

/-- State of `WordSupply`: the buffer `_words`, the set `_used` of
words already handed out, and the single-flight `_filling` flag. -/
structure WordSupply where
  words : List Word
  used : Finset Word
  filling : Bool

/-- `WordSupply._maybe_refill()`: raise the flag (and start a
background `_fill_bg`) when no refill is in flight and the buffer is
below the low-water mark. -/
def maybe_refill (s : WordSupply) : WordSupply :=
  if s.filling = false ∧ s.words.length < WORD_LOW then
    { s with filling := true }
  else s

/-- `WordSupply.get()`.  `pick` stands for the one random draw the call
makes (`random.randrange` on the buffer, or `random.choice` on the
fallback list), reduced modulo the relevant length.  Nonempty buffer:
swap-with-last-and-remove and record the word as used.  Empty buffer:
choose from the fallback words not yet used; if every fallback word has
been used, reset the used set first.  Finally `_maybe_refill()`. -/
def WordSupply.get (s : WordSupply) (pick : Nat) : Word × WordSupply :=
  if s.words = [] then
    let avail := FALLBACK.filter (fun w => w ∉ s.used)
    if avail = [] then
      let w := FALLBACK.getD (pick % FALLBACK.length) []
      (w, maybe_refill { s with used := insert w ∅ })
    else
      let w := avail.getD (pick % avail.length) []
      (w, maybe_refill { s with used := insert w s.used })
  else
    let p := popAt s.words (pick % s.words.length) []
    (p.1, maybe_refill { s with words := p.2, used := insert p.1 s.used })

/-- `WordSupply.size()`. -/
def WordSupply.size (s : WordSupply) : Nat := s.words.length

/-- Python `chr(c).lower()` restricted to the ASCII range: uppercase
letters shift down by 32, everything else is unchanged.  Full Unicode
case mapping is outside the scope of the embedding. -/
def py_lower_char (c : Nat) : Nat := if 65 ≤ c ∧ c ≤ 90 then c + 32 else c

/-- Python `chr(c).isalpha()` restricted to the ASCII range. -/
def py_is_alpha_char (c : Nat) : Bool :=
  decide ((65 ≤ c ∧ c ≤ 90) ∨ (97 ≤ c ∧ c ≤ 122))

/-- Python `w.isalpha()`: nonempty and every character alphabetic. -/
def py_is_alpha (w : Word) : Bool := decide (w ≠ []) && w.all py_is_alpha_char

/-- Python `w.lower()`, character by character. -/
def py_lower (w : Word) : Word := w.map py_lower_char

/-- The filtering comprehension in `WordSupply._fetch`:
`[w.lower() for w in words if w.isalpha() and 3 <= len(w) <= 12]`. -/
def filter_tokens (ws : List Word) : List Word :=
  (ws.filter fun w =>
    py_is_alpha w && decide (3 ≤ w.length) && decide (w.length ≤ 12)
  ).map py_lower

/-- The invariant that actually holds of every reachable pool state:
every held record has a nonempty extractable identifier that is in the
identifier set, no two held records share an identifier, and the
identifier set is at least as large as the buffer.  The stronger 1:1
size claim of the spec fails, because `take` removes records without
removing their identifiers. -/
def PoolInv (s : ResultPool) : Prop :=
  (∀ d ∈ s.items, ∃ rid, record_id d = some rid ∧ rid ≠ "" ∧ rid ∈ s.seen)
  ∧ (s.items.map record_id).Nodup
  ∧ s.items.length ≤ s.seen.card

/-- Concrete configuration (the `ucl` entry of `KNOWN_LIBRARIES`),
used in the concrete scenarios. -/
def cfg0 : LibraryConfig :=
  ⟨"UCL Library", "https://ucl.primo.exlibrisgroup.com", "44UCL_INST:UCL_VU2",
   "UCLLibraryCatalogue", "MyInst_and_CI", "44UCL_INST"⟩

/-- A second concrete configuration (the `imperial` entry), differing
from `cfg0`. -/
def cfg1 : LibraryConfig :=
  ⟨"Imperial College Library", "https://library-search.imperial.ac.uk",
   "44IMP_INST:ICL_VU1", "Everything", "MyInst_and_CI", "44IMP_INST"⟩

/-- Record number `n`, with identifier a string of `n + 1` letters:
such identifiers are nonempty and pairwise distinct. -/
def mkDoc (n : Nat) : Doc := ⟨[String.mk (List.replicate (n + 1) 'a')], n⟩

/-- A record with identifier `a1`. -/
def dA : Doc := ⟨["a1"], 0⟩

/-- A different record carrying the same identifier `a1`. -/
def dA2 : Doc := ⟨["a1"], 1⟩

/-- A record with identifier `rec42`, as in the dedup scenario. -/
def rec42a : Doc := ⟨["rec42"], 0⟩

/-- A different record carrying the same identifier `rec42`. -/
def rec42b : Doc := ⟨["rec42"], 1⟩

/-- A fresh pool that merged one record and then had it taken: its
identifier set still holds `a1` while the record buffer is empty. -/
def poolC2 : ResultPool := ((add_docs (mkPool cfg0 150 30) [dA]).take 1 [0]).2

/-- A pool holding exactly three records. -/
def pool3 : ResultPool :=
  add_docs (mkPool cfg0 150 30) [mkDoc 0, mkDoc 1, mkDoc 2]

/-- A pool holding exactly twenty records. -/
def pool20 : ResultPool :=
  add_docs (mkPool cfg0 150 30) ((List.range 20).map mkDoc)

/-- A fresh pool whose fill flag is raised. -/
def poolFilling : ResultPool := { mkPool cfg0 150 30 with filling := true }

/-- A word supply whose buffer is empty and whose fallback list is
exhausted (every fallback word already used). -/
def supplyEmpty : WordSupply := ⟨[], FALLBACK.toFinset, false⟩

/-- Outcomes for seven fetch tasks of fifty records each, all 350
identifiers pairwise distinct. -/
def c4results : List (List Doc) :=
  (List.range 7).map fun b => (List.range 50).map fun i => mkDoc (50 * b + i)

theorem popAt_length {α : Type} (l : List α) (i : Nat) (d : α) :
    (popAt l i d).2.length = l.length - 1 := by
  simp [popAt]

theorem popAt_perm {α : Type} (l : List α) (i : Nat) (d : α) (h : i < l.length) :
    List.Perm ((popAt l i d).1 :: (popAt l i d).2) l := by
  have hne : l ≠ [] := by intro he; subst he; simp at h
  have hlast : l.getLastD d = l.getLast hne := by
    rw [List.getLastD_eq_getLast?, List.getLast?_eq_getLast l hne]
    rfl
  unfold popAt
  simp only [List.getD_eq_getElem l d h]
  rw [List.set_eq_take_append_cons_drop, if_pos h, hlast]
  by_cases hi : i + 1 < l.length
  · have hdne : l.drop (i + 1) ≠ [] := by
      intro he
      have := congrArg List.length he
      simp at this
      omega
    rw [List.dropLast_append_of_ne_nil _ (List.cons_ne_nil _ _),
        List.dropLast_cons_of_ne_nil hdne]
    have hback : (l.drop (i + 1)).dropLast ++ [l.getLast hne]
        = l.drop (i + 1) := by
      have hgl : (l.drop (i + 1)).getLast hdne = l.getLast hne :=
        List.getLast_drop ..
      rw [← hgl]
      exact List.dropLast_append_getLast hdne
    have hdecomp :
        l = l.take i ++ l[i] :: ((l.drop (i + 1)).dropLast ++ [l.getLast hne]) := by
      conv_lhs => rw [← List.take_append_drop i l,
        ← List.getElem_cons_drop l i h]
      rw [hback]
    conv_rhs => rw [hdecomp]
    have h1 : List.Perm
        (l[i] :: (l.take i ++ l.getLast hne :: (l.drop (i + 1)).dropLast))
        (l.take i ++ l[i] :: (l.getLast hne :: (l.drop (i + 1)).dropLast)) :=
      List.perm_middle.symm
    refine h1.trans (List.Perm.append_left _ ?_)
    exact List.Perm.cons _ (List.perm_append_singleton _ _).symm
  · have hdrop : l.drop (i + 1) = [] := List.drop_eq_nil_of_le (by omega)
    rw [hdrop, List.dropLast_concat]
    have hdecomp : l = l.take i ++ [l[i]] := by
      conv_lhs => rw [← List.take_append_drop i l,
        ← List.getElem_cons_drop l i h]
      rw [hdrop]
    conv_rhs => rw [hdecomp]
    exact (List.perm_append_singleton _ _).symm

theorem take_aux_perm (k : Nat) (rand : List Nat) (items picked : List Doc) :
    List.Perm
      ((take_aux k rand items picked).1 ++ (take_aux k rand items picked).2)
      (picked ++ items) := by
  induction k generalizing rand items picked with
  | zero => simp [take_aux]
  | succ k ih =>
    by_cases he : items = []
    · subst he; simp [take_aux]
    · have hlen : 0 < items.length := List.length_pos.2 he
      have hidx : rand.headD 0 % items.length < items.length :=
        Nat.mod_lt _ hlen
      have hperm := popAt_perm items (rand.headD 0 % items.length) defaultDoc hidx
      have hstep := ih rand.tail
        (popAt items (rand.headD 0 % items.length) defaultDoc).2
        (picked ++ [(popAt items (rand.headD 0 % items.length) defaultDoc).1])
      simp only [take_aux, if_neg he]
      refine hstep.trans ?_
      rw [List.append_assoc]
      exact List.Perm.append_left picked (by simpa using hperm)

theorem take_aux_length (k : Nat) (rand : List Nat) (items picked : List Doc)
    (h : k ≤ items.length) :
    (take_aux k rand items picked).1.length = picked.length + k
    ∧ (take_aux k rand items picked).2.length = items.length - k := by
  induction k generalizing rand items picked with
  | zero => simp [take_aux]
  | succ k ih =>
    have he : items ≠ [] := by
      intro he; subst he; simp at h
    have hrest :
        (popAt items (rand.headD 0 % items.length) defaultDoc).2.length
          = items.length - 1 := popAt_length ..
    have hstep := ih rand.tail
      (popAt items (rand.headD 0 % items.length) defaultDoc).2
      (picked ++ [(popAt items (rand.headD 0 % items.length) defaultDoc).1])
      (by omega)
    simp only [take_aux, if_neg he]
    constructor
    · rw [hstep.1]; simp; omega
    · rw [hstep.2]; omega

theorem take_items_perm (s : ResultPool) (n : Int) (rand : List Nat) :
    List.Perm ((s.take n rand).1 ++ (s.take n rand).2.items) s.items := by
  have h := take_aux_perm ((min n (s.items.length : Int)).toNat) rand s.items []
  simpa [ResultPool.take] using h

theorem take_lengths (s : ResultPool) (n : Int) (rand : List Nat) :
    (s.take n rand).1.length = (min n (s.items.length : Int)).toNat
    ∧ (s.take n rand).2.items.length
        = s.items.length - (min n (s.items.length : Int)).toNat := by
  have hm : (min n (s.items.length : Int)).toNat ≤ s.items.length := by
    have : min n (s.items.length : Int) ≤ (s.items.length : Int) :=
      min_le_right _ _
    omega
  have h := take_aux_length ((min n (s.items.length : Int)).toNat) rand
    s.items [] hm
  simpa [ResultPool.take] using h

theorem take_frame (s : ResultPool) (n : Int) (rand : List Nat) :
    (s.take n rand).2.seen = s.seen
    ∧ (s.take n rand).2.config = s.config
    ∧ (s.take n rand).2.filling = s.filling
    ∧ (s.take n rand).2.target = s.target := by
  simp [ResultPool.take]

theorem poolInv_mk (config : LibraryConfig) (target low : Nat) :
    PoolInv (mkPool config target low) := by
  simp [PoolInv, mkPool]

theorem poolInv_clear (s : ResultPool) : PoolInv s.clear := by
  simp [PoolInv, ResultPool.clear]

theorem poolInv_add_doc (s : ResultPool) (d : Doc) (h : PoolInv s) :
    PoolInv (add_doc s d) := by
  obtain ⟨h1, h2, h3⟩ := h
  cases hrid : record_id d with
  | none =>
    simp only [add_doc, hrid]
    exact ⟨h1, h2, h3⟩
  | some rid =>
    simp only [add_doc, hrid]
    by_cases hc : rid ≠ "" ∧ rid ∉ s.seen
    · rw [if_pos hc]
      refine ⟨?_, ?_, ?_⟩
      · intro d' hd'
        rcases List.mem_append.1 hd' with hmem | hmem
        · obtain ⟨rid', e1, e2, e3⟩ := h1 d' hmem
          exact ⟨rid', e1, e2, Finset.mem_insert_of_mem e3⟩
        · rw [List.mem_singleton] at hmem
          subst hmem
          exact ⟨rid, hrid, hc.1, Finset.mem_insert_self _ _⟩
      · rw [List.map_append]
        rw [List.nodup_append]
        refine ⟨h2, List.nodup_singleton _, ?_⟩
        intro x hx hx'
        simp only [List.map_cons, List.map_nil, List.mem_singleton] at hx'
        subst hx'
        obtain ⟨d', hd', he⟩ := List.mem_map.1 hx
        obtain ⟨rid', e1, _, e3⟩ := h1 d' hd'
        rw [e1] at he
        rw [hrid] at he
        obtain rfl : rid' = rid := Option.some.inj he
        exact hc.2 e3
      · simp only [List.length_append, List.length_singleton]
        rw [Finset.card_insert_of_not_mem hc.2]
        omega
    · rw [if_neg hc]
      exact ⟨h1, h2, h3⟩

theorem poolInv_add_docs (s : ResultPool) (docs : List Doc) (h : PoolInv s) :
    PoolInv (add_docs s docs) := by
  induction docs generalizing s with
  | nil => exact h
  | cons d ds ih => exact ih (add_doc s d) (poolInv_add_doc s d h)

theorem poolInv_set_config (s : ResultPool) (v : LibraryConfig)
    (h : PoolInv s) : PoolInv (set_config s v) := by
  unfold set_config
  by_cases hv : v ≠ s.config
  · rw [if_pos hv]; exact poolInv_clear _
  · rw [if_neg hv]; exact h

theorem poolInv_set_material_type (s : ResultPool) (v : Option String)
    (h : PoolInv s) : PoolInv (set_material_type s v) := by
  unfold set_material_type
  by_cases hv : v ≠ s.mtype
  · rw [if_pos hv]; exact poolInv_clear _
  · rw [if_neg hv]; exact h

theorem poolInv_take (s : ResultPool) (n : Int) (rand : List Nat)
    (h : PoolInv s) : PoolInv (s.take n rand).2 := by
  obtain ⟨h1, h2, h3⟩ := h
  have hperm := take_items_perm s n rand
  have hseen := (take_frame s n rand).1
  refine ⟨?_, ?_, ?_⟩
  · intro d hd
    have hmem : d ∈ s.items :=
      hperm.mem_iff.1 (List.mem_append.2 (Or.inr hd))
    obtain ⟨rid, e1, e2, e3⟩ := h1 d hmem
    exact ⟨rid, e1, e2, hseen ▸ e3⟩
  · have hmap := hperm.map record_id
    have : (((s.take n rand).1 ++ (s.take n rand).2.items).map record_id).Nodup :=
      hmap.nodup_iff.2 h2
    rw [List.map_append] at this
    exact this.of_append_right
  · have hlen := (take_lengths s n rand).2
    rw [hseen, hlen]
    omega

theorem poolInv_fill (s : ResultPool) (results : List (List Doc))
    (h : PoolInv s) : PoolInv (fill s results) := by
  have hfold : ∀ (rs : List (List Doc)) (st : ResultPool), PoolInv st →
      PoolInv (rs.foldl
        (fun st docs => if docs = [] then st else add_docs st docs) st) := by
    intro rs
    induction rs with
    | nil => intro st hst; exact hst
    | cons r rs ih =>
      intro st hst
      by_cases hr : r = []
      · simpa [hr] using ih st hst
      · simp only [List.foldl_cons, if_neg hr]
        exact ih _ (poolInv_add_docs st r hst)
  have hbase := hfold results s h
  unfold fill
  exact ⟨hbase.1, hbase.2.1, hbase.2.2⟩

theorem poolInv_fill_async (s : ResultPool) (h : PoolInv s) :
    PoolInv (fill_async s).1 := by
  unfold fill_async
  by_cases hc : s.filling = true ∨ s.target ≤ s.size
  · rw [if_pos hc]; exact h
  · rw [if_neg hc]; exact ⟨h.1, h.2.1, h.2.2⟩

theorem poolInv_reachable (s : ResultPool) (h : Reachable s) : PoolInv s := by
  induction h with
  | init config target low => exact poolInv_mk config target low
  | set_config s v _ ih => exact poolInv_set_config s v ih
  | set_material_type s v _ ih => exact poolInv_set_material_type s v ih
  | clear s _ _ => exact poolInv_clear s
  | take s n rand _ ih => exact poolInv_take s n rand ih
  | merge s docs _ ih => exact poolInv_add_docs s docs ih
  | fill s results _ ih => exact poolInv_fill s results ih
  | fill_async s _ ih => exact poolInv_fill_async s ih

theorem poolable_id_eq_some (d : Doc) (rid : String) :
    poolable_id d = some rid ↔ record_id d = some rid ∧ rid ≠ "" := by
  unfold poolable_id
  cases hr : record_id d with
  | none => simp
  | some a =>
    by_cases ha : a = ""
    · subst ha
      simp only [if_pos rfl]
      constructor
      · intro h; exact absurd h (by simp)
      · intro ⟨h1, h2⟩; exact absurd (Option.some.inj h1).symm h2
    · simp only [if_neg ha, Option.some.injEq]
      constructor
      · intro h
        subst h
        exact ⟨rfl, ha⟩
      · intro h
        exact h.1

theorem add_doc_new (s : ResultPool) (d : Doc) (rid : String)
    (h1 : record_id d = some rid) (h2 : rid ≠ "") (h3 : rid ∉ s.seen) :
    add_doc s d = { s with seen := insert rid s.seen, items := s.items ++ [d] } := by
  simp only [add_doc, h1]
  rw [if_pos ⟨h2, h3⟩]

theorem add_docs_fresh (s : ResultPool) (docs : List Doc)
    (hid : ∀ d ∈ docs, ∃ rid, record_id d = some rid ∧ rid ≠ "" ∧ rid ∉ s.seen)
    (hnd : (docs.map record_id).Nodup) :
    (add_docs s docs).items.length = s.items.length + docs.length
    ∧ ∀ rid : String, rid ∈ (add_docs s docs).seen ↔
        rid ∈ s.seen ∨ some rid ∈ docs.map record_id := by
  induction docs generalizing s with
  | nil => simp [add_docs]
  | cons d ds ih =>
    obtain ⟨rid0, e1, e2, e3⟩ := hid d (List.mem_cons_self d ds)
    have hstep := add_doc_new s d rid0 e1 e2 e3
    have hnotmem : record_id d ∉ ds.map record_id := by
      rw [List.map_cons] at hnd
      exact (List.nodup_cons.1 hnd).1
    have hid' : ∀ d' ∈ ds, ∃ rid, record_id d' = some rid ∧ rid ≠ ""
        ∧ rid ∉ (add_doc s d).seen := by
      intro d' hd'
      obtain ⟨rid', f1, f2, f3⟩ := hid d' (List.mem_cons_of_mem d hd')
      refine ⟨rid', f1, f2, ?_⟩
      rw [hstep]
      simp only [Finset.mem_insert]
      push_neg
      refine ⟨?_, f3⟩
      intro hEq
      subst hEq
      rw [e1] at hnotmem
      rw [← f1] at hnotmem
      exact hnotmem (List.mem_map_of_mem record_id hd')
    have hnd' : (ds.map record_id).Nodup := by
      rw [List.map_cons] at hnd
      exact (List.nodup_cons.1 hnd).2
    have hrec := ih (add_doc s d) hid' hnd'
    have hds : add_docs s (d :: ds) = add_docs (add_doc s d) ds := rfl
    constructor
    · rw [hds, hrec.1, hstep]
      simp
      omega
    · intro rid
      rw [hds, hrec.2 rid, hstep]
      simp only [Finset.mem_insert, List.map_cons, List.mem_cons, e1,
        Option.some.injEq]
      tauto

theorem merge_foldl_eq_join (s : ResultPool) (results : List (List Doc)) :
    results.foldl (fun st docs => if docs = [] then st else add_docs st docs) s
      = add_docs s results.flatten := by
  induction results generalizing s with
  | nil => rfl
  | cons r rs ih =>
    simp only [List.foldl_cons, List.flatten_cons]
    by_cases hr : r = []
    · subst hr
      rw [if_pos rfl, ih]
      rfl
    · rw [if_neg hr, ih]
      unfold add_docs
      rw [List.foldl_append]

theorem fill_items_eq (s : ResultPool) (results : List (List Doc)) :
    (fill s results).items = (add_docs s results.flatten).items := by
  unfold fill
  rw [merge_foldl_eq_join]

theorem mkDoc_record_id (n : Nat) :
    record_id (mkDoc n) = some (String.mk (List.replicate (n + 1) 'a')) := rfl

theorem mkDoc_id_ne_empty (n : Nat) :
    String.mk (List.replicate (n + 1) 'a') ≠ "" := by
  intro h
  have := congrArg String.data h
  simp at this

theorem mkDoc_id_injective :
    Function.Injective (fun n => record_id (mkDoc n)) := by
  intro a b h
  simp only [mkDoc_record_id, Option.some.injEq] at h
  have hlen := congrArg (fun s => s.data.length) h
  simp only [List.length_replicate] at hlen
  omega

set_option maxRecDepth 10000 in
theorem c4results_flatten : c4results.flatten = (List.range 350).map mkDoc := by
  decide

theorem c4results_ids (d : Doc) (hd : d ∈ c4results.flatten) :
    ∃ rid, record_id d = some rid ∧ rid ≠ "" := by
  rw [c4results_flatten] at hd
  obtain ⟨n, _, rfl⟩ := List.mem_map.1 hd
  exact ⟨_, mkDoc_record_id n, mkDoc_id_ne_empty n⟩

theorem c4results_nodup : (c4results.flatten.map record_id).Nodup := by
  rw [c4results_flatten, List.map_map]
  exact (List.nodup_range 350).map mkDoc_id_injective

/-- C1, counterexample: merge the record `dA` (identifier `a1`) into a
fresh pool, then take it out.  The identifier `a1` is still in the
identifier set — `take` did not remove it, contrary to the claim — and
a record with the same identifier returned by a later fetch is not
re-admitted: merging `dA2` leaves the buffer empty. -/
theorem take_seen_cex :
    "a1" ∈ poolC2.seen ∧ poolC2.items = []
    ∧ (add_docs poolC2 [dA2]).items = [] := by
  refine ⟨by decide, by decide, by decide⟩

/-- C1 (amended): `take` never changes the identifier set, and a record
whose identifier is already in the set is not re-added by a merge after
the take. -/
theorem take_preserves_seen (s : ResultPool) (n : Int) (rand : List Nat) :
    (s.take n rand).2.seen = s.seen
    ∧ ∀ d rid, record_id d = some rid → rid ∈ s.seen →
        (add_doc (s.take n rand).2 d).items = (s.take n rand).2.items := by
  refine ⟨(take_frame s n rand).1, ?_⟩
  intro d rid h1 h2
  have hcond : ¬(rid ≠ "" ∧ rid ∉ (s.take n rand).2.seen) := by
    rw [(take_frame s n rand).1]
    intro hc
    exact hc.2 h2
  simp only [add_doc, h1]
  rw [if_neg hcond]

theorem take_preserves_seen_witness :
    ((add_docs (mkPool cfg0 150 30) [dA]).take 1 [0]).2.seen
        = (add_docs (mkPool cfg0 150 30) [dA]).seen
    ∧ (add_doc ((add_docs (mkPool cfg0 150 30) [dA]).take 1 [0]).2 dA2).items
        = ((add_docs (mkPool cfg0 150 30) [dA]).take 1 [0]).2.items :=
  ⟨(take_preserves_seen (add_docs (mkPool cfg0 150 30) [dA]) 1 [0]).1,
   (take_preserves_seen (add_docs (mkPool cfg0 150 30) [dA]) 1 [0]).2 dA2 "a1"
     rfl (by decide)⟩

/-- C2, counterexample: `poolC2` is reachable by public operations, yet
its identifier set has one element while its record buffer is empty, so
the claimed 1:1 size correspondence fails. -/
theorem pool_inv_cex :
    Reachable poolC2 ∧ poolC2.seen.card ≠ poolC2.items.length := by
  constructor
  · exact Reachable.take _ 1 [0]
      (Reachable.merge _ [dA] (Reachable.init cfg0 150 30))
  · decide

/-- C2 (amended): in every reachable pool state, every held record has
a nonempty identifier that is in the identifier set, no identifier
appears twice among held records, and the identifier set is at least as
large as the record buffer (equality fails after a `take`). -/
theorem reachable_pool_invariant (s : ResultPool) (h : Reachable s) :
    (∀ d ∈ s.items, ∃ rid, record_id d = some rid ∧ rid ≠ "" ∧ rid ∈ s.seen)
    ∧ (s.items.map record_id).Nodup
    ∧ s.items.length ≤ s.seen.card :=
  poolInv_reachable s h

theorem reachable_pool_invariant_witness :
    poolC2.items.length ≤ poolC2.seen.card :=
  (reachable_pool_invariant poolC2
    (Reachable.take _ 1 [0]
      (Reachable.merge _ [dA] (Reachable.init cfg0 150 30)))).2.2

/-- C3: for nonnegative `n`, `take` returns exactly `min(n, size)`
records, the returned records together with the remaining buffer are a
permutation of the original buffer (each returned record is removed),
and on a pool of exactly three records `take 5` returns three and
leaves size zero. -/
theorem take_min_spec (s : ResultPool) (n : Int) (rand : List Nat)
    (h : 0 ≤ n) :
    (s.take n rand).1.length = min n.toNat s.items.length
    ∧ List.Perm ((s.take n rand).1 ++ (s.take n rand).2.items) s.items
    ∧ (s.take n rand).2.items.length
        = s.items.length - min n.toNat s.items.length
    ∧ (pool3.take 5 rand).1.length = 3
    ∧ (pool3.take 5 rand).2.size = 0 := by
  have hmin : (min n (s.items.length : Int)).toNat
      = min n.toNat s.items.length := by
    rcases le_total n (s.items.length : Int) with hle | hle
    · rw [min_eq_left hle, min_eq_left (by omega)]
    · rw [min_eq_right hle, min_eq_right (by omega)]
      omega
  refine ⟨?_, take_items_perm s n rand, ?_, ?_, ?_⟩
  · rw [(take_lengths s n rand).1, hmin]
  · rw [(take_lengths s n rand).2, hmin]
  · exact ((take_lengths pool3 5 rand).1).trans (by decide)
  · exact ((take_lengths pool3 5 rand).2).trans (by decide)

theorem take_min_spec_witness :
    (0 : Int) ≤ 5
    ∧ (pool3.take 5 [2, 0]).1.length = 3
    ∧ (pool3.take 5 [2, 0]).2.size = 0 :=
  ⟨by decide,
   (take_min_spec pool3 5 [2, 0] (by decide)).2.2.2.1,
   (take_min_spec pool3 5 [2, 0] (by decide)).2.2.2.2⟩

/-- C10: for `n ≤ 0`, `take` returns the empty list and leaves the
whole pool state (record buffer and identifier set included)
unchanged. -/
theorem take_nonpos_noop (s : ResultPool) (n : Int) (rand : List Nat)
    (h : n ≤ 0) : s.take n rand = ([], s) := by
  have hm : (min n (s.items.length : Int)).toNat = 0 := by
    have hle : min n (s.items.length : Int) ≤ n := min_le_left _ _
    omega
  simp only [ResultPool.take, hm, take_aux]

theorem take_nonpos_noop_witness :
    (-2 : Int) ≤ 0 ∧ pool3.take (-2) [] = ([], pool3) :=
  ⟨by decide, take_nonpos_noop pool3 (-2) [] (by decide)⟩

/-- C5: assigning a different service configuration or category filter
immediately and synchronously empties both the record buffer and the
identifier set, changing no other field (in particular the fill flag is
untouched, so no fill is triggered); assigning an equal value changes
nothing at all. -/
theorem setter_clear_spec (s : ResultPool) (v : LibraryConfig)
    (m : Option String) :
    (v ≠ s.config →
        set_config s v = { s with config := v, items := [], seen := ∅ }
        ∧ (set_config s v).size = 0)
    ∧ (v = s.config → set_config s v = s)
    ∧ (m ≠ s.mtype →
        set_material_type s m = { s with mtype := m, items := [], seen := ∅ }
        ∧ (set_material_type s m).size = 0)
    ∧ (m = s.mtype → set_material_type s m = s) := by
  refine ⟨?_, ?_, ?_, ?_⟩
  · intro h
    constructor
    · simp [set_config, ResultPool.clear, h]
    · simp [set_config, ResultPool.clear, ResultPool.size, h]
  · intro h
    simp [set_config, h]
  · intro h
    constructor
    · simp [set_material_type, ResultPool.clear, h]
    · simp [set_material_type, ResultPool.clear, ResultPool.size, h]
  · intro h
    simp [set_material_type, h]

theorem setter_clear_spec_witness :
    pool20.size = 20
    ∧ (set_material_type pool20 (some "book")).size = 0
    ∧ set_config pool20 cfg1
        = { pool20 with config := cfg1, items := [], seen := ∅ }
    ∧ set_config pool20 cfg0 = pool20 :=
  ⟨by decide,
   ((setter_clear_spec pool20 cfg1 (some "book")).2.2.1 (by decide)).2,
   ((setter_clear_spec pool20 cfg1 (some "book")).1 (by decide)).1,
   (setter_clear_spec pool20 cfg0 (some "book")).2.1 (by decide)⟩

/-- C6: `fill_async` is a no-op whenever a fill is in flight or the
size has reached the target, and of two consecutive calls at most the
first can start a fill: if the first started one, the second starts
none. -/
theorem fill_async_single_flight (s : ResultPool) :
    (s.filling = true ∨ s.target ≤ s.size → fill_async s = (s, false))
    ∧ ((fill_async s).2 = true → (fill_async (fill_async s).1).2 = false) := by
  by_cases hc : s.filling = true ∨ s.target ≤ s.size
  · have h1 : fill_async s = (s, false) := by
      unfold fill_async
      rw [if_pos hc]
    refine ⟨fun _ => h1, ?_⟩
    intro h2
    rw [h1] at h2
    simp at h2
  · have h1 : fill_async s = ({ s with filling := true }, true) := by
      unfold fill_async
      rw [if_neg hc]
    refine ⟨fun h => absurd h hc, ?_⟩
    intro _
    rw [h1]
    show (fill_async { s with filling := true }).2 = false
    unfold fill_async
    rw [if_pos (Or.inl rfl)]

theorem fill_async_single_flight_witness :
    fill_async poolFilling = (poolFilling, false)
    ∧ (fill_async (fill_async (mkPool cfg0 150 30)).1).2 = false :=
  ⟨(fill_async_single_flight poolFilling).1 (Or.inl rfl),
   (fill_async_single_flight (mkPool cfg0 150 30)).2 (by decide)⟩

/-- C7: the merge step adds a record exactly when its identifier is
extractable (present and nonempty under Python truthiness) and not yet
in the identifier set, and otherwise changes nothing (records without
an extractable identifier are dropped silently); merging two batches
that each carry a record with identifier `rec42` leaves exactly one
record with that identifier in the pool. -/
theorem add_doc_dedup_spec (s : ResultPool) (d : Doc) :
    ((∃ rid, poolable_id d = some rid ∧ rid ∉ s.seen) →
        (add_doc s d).items = s.items ++ [d]
        ∧ ∀ rid, poolable_id d = some rid →
            (add_doc s d).seen = insert rid s.seen)
    ∧ (¬(∃ rid, poolable_id d = some rid ∧ rid ∉ s.seen) → add_doc s d = s)
    ∧ (add_docs (add_docs (mkPool cfg0 150 30) [rec42a]) [rec42b]).items
        = [rec42a] := by
  refine ⟨?_, ?_, by decide⟩
  · rintro ⟨rid, hp, hn⟩
    obtain ⟨h1, h2⟩ := (poolable_id_eq_some d rid).1 hp
    rw [add_doc_new s d rid h1 h2 hn]
    refine ⟨rfl, ?_⟩
    intro rid2 hp2
    rw [hp] at hp2
    obtain rfl := Option.some.inj hp2
    rfl
  · intro hne
    cases hr : record_id d with
    | none => simp [add_doc, hr]
    | some a =>
      simp only [add_doc, hr]
      rw [if_neg]
      intro hc
      exact hne ⟨a, (poolable_id_eq_some d a).2 ⟨hr, hc.1⟩, hc.2⟩

theorem add_doc_dedup_spec_witness :
    (add_doc (mkPool cfg0 150 30) rec42a).items
        = (mkPool cfg0 150 30).items ++ [rec42a]
    ∧ add_doc (add_docs (mkPool cfg0 150 30) [rec42a]) rec42b
        = add_docs (mkPool cfg0 150 30) [rec42a] :=
  ⟨((add_doc_dedup_spec (mkPool cfg0 150 30) rec42a).1
      ⟨"rec42", by decide, by decide⟩).1,
   (add_doc_dedup_spec (add_docs (mkPool cfg0 150 30) [rec42a]) rec42b).2.1
     (by
       rintro ⟨rid, hp, hn⟩
       have h0 : poolable_id rec42b = some "rec42" := by decide
       rw [h0] at hp
       obtain rfl := Option.some.inj hp
       revert hn
       decide)⟩

/-- C4: a fill dispatches exactly `max(3, (target - size) // 20)` fetch
tasks (`num_batches` is that expression by definition); with target 150
on an empty pool that is 7 tasks, and if each of the 7 tasks returns 50
records whose 350 identifiers are extractable and pairwise distinct,
the pool size after the fill is 350 — the target is not enforced as a
cap. -/
theorem fill_batches_overshoot (s : ResultPool) (results : List (List Doc))
    (hitems : s.items = []) (hseen : s.seen = ∅) (htarget : s.target = 150)
    (hcount : results.length = num_batches s)
    (hsize : ∀ r ∈ results, r.length = 50)
    (hids : ∀ d ∈ results.flatten, ∃ rid, record_id d = some rid ∧ rid ≠ "")
    (hnd : (results.flatten.map record_id).Nodup) :
    num_batches s = 7 ∧ results.length = 7 ∧ (fill s results).size = 350 := by
  have hb : num_batches s = 7 := by
    unfold num_batches ResultPool.size
    rw [hitems, htarget]
    decide
  have hids2 : ∀ d ∈ results.flatten,
      ∃ rid, record_id d = some rid ∧ rid ≠ "" ∧ rid ∉ s.seen := by
    intro d hd
    obtain ⟨rid, e1, e2⟩ := hids d hd
    refine ⟨rid, e1, e2, ?_⟩
    rw [hseen]
    exact Finset.not_mem_empty rid
  have hfresh := add_docs_fresh s results.flatten hids2 hnd
  have hflen : results.flatten.length = 350 := by
    rw [List.length_flatten]
    have hrepl : results.map List.length = List.replicate 7 50 := by
      refine List.eq_replicate_iff.2 ⟨?_, ?_⟩
      · rw [List.length_map, hcount, hb]
      · intro b hb2
        obtain ⟨r, hr, rfl⟩ := List.mem_map.1 hb2
        exact hsize r hr
    rw [hrepl]
    decide
  refine ⟨hb, by rw [hcount, hb], ?_⟩
  show (fill s results).items.length = 350
  rw [fill_items_eq, hfresh.1, hitems, hflen]
  simp

set_option maxRecDepth 10000 in
theorem fill_batches_overshoot_witness :
    num_batches (mkPool cfg0 150 30) = 7 ∧ c4results.length = 7
    ∧ (fill (mkPool cfg0 150 30) c4results).size = 350 :=
  fill_batches_overshoot (mkPool cfg0 150 30) c4results rfl rfl rfl
    (by decide) (by decide) c4results_ids c4results_nodup

/-- C8: `get` always returns a nonempty token, for every supply state
whose buffered words are nonempty (as all buffered words are, since
they pass the length filter of `_fetch`) — including the empty-buffer
case and the case where every fallback word has been used, where the
used set is reset and a fallback word is still returned. -/
theorem word_get_nonempty (s : WordSupply) (pick : Nat)
    (h : ∀ w ∈ s.words, w ≠ []) :
    (WordSupply.get s pick).1 ≠ [] := by
  have hfb : ∀ w ∈ FALLBACK, w ≠ [] := by decide
  unfold WordSupply.get
  by_cases he : s.words = []
  · simp only [if_pos he]
    by_cases ha : FALLBACK.filter (fun w => w ∉ s.used) = []
    · simp only [if_pos ha]
      have hm : pick % FALLBACK.length < FALLBACK.length :=
        Nat.mod_lt _ (by decide)
      rw [List.getD_eq_getElem _ _ hm]
      exact hfb _ (List.getElem_mem hm)
    · simp only [if_neg ha]
      have hlen : 0 < (FALLBACK.filter (fun w => w ∉ s.used)).length :=
        List.length_pos.2 ha
      have hm : pick % (FALLBACK.filter (fun w => w ∉ s.used)).length
          < (FALLBACK.filter (fun w => w ∉ s.used)).length :=
        Nat.mod_lt _ hlen
      rw [List.getD_eq_getElem _ _ hm]
      exact hfb _ (List.mem_of_mem_filter (List.getElem_mem hm))
  · simp only [if_neg he]
    have hlen : 0 < s.words.length := List.length_pos.2 he
    have hm : pick % s.words.length < s.words.length := Nat.mod_lt _ hlen
    show (popAt s.words (pick % s.words.length) []).1 ≠ []
    unfold popAt
    rw [List.getD_eq_getElem _ _ hm]
    exact h _ (List.getElem_mem hm)

theorem word_get_nonempty_witness :
    (∀ w ∈ supplyEmpty.words, w ≠ [])
    ∧ (WordSupply.get supplyEmpty 0).1 ≠ [] :=
  ⟨by simp [supplyEmpty],
   word_get_nonempty supplyEmpty 0 (by simp [supplyEmpty])⟩

/-- C9: every token kept by the filter of `_fetch` has between 3 and 12
characters and consists only of lowercase ASCII letters (code points 97
to 122); everything else is discarded by the filter. -/
theorem filter_tokens_spec (ws : List Word) (v : Word)
    (hv : v ∈ filter_tokens ws) :
    3 ≤ v.length ∧ v.length ≤ 12 ∧ ∀ c ∈ v, 97 ≤ c ∧ c ≤ 122 := by
  unfold filter_tokens at hv
  obtain ⟨w, hw, rfl⟩ := List.mem_map.1 hv
  obtain ⟨hin, hcond⟩ := List.mem_filter.1 hw
  simp only [Bool.and_eq_true, decide_eq_true_eq] at hcond
  obtain ⟨⟨halpha, h3⟩, h12⟩ := hcond
  refine ⟨?_, ?_, ?_⟩
  · simpa [py_lower] using h3
  · simpa [py_lower] using h12
  · intro c hc
    obtain ⟨c0, hc0, rfl⟩ := List.mem_map.1 hc
    have halpha' : (decide (w ≠ []) && w.all py_is_alpha_char) = true := by
      simpa [py_is_alpha] using halpha
    have halpha2 : w.all py_is_alpha_char = true := by
      simp only [Bool.and_eq_true] at halpha'
      exact halpha'.2
    have hc0alpha := List.all_eq_true.1 halpha2 c0 hc0
    have hrange : (65 ≤ c0 ∧ c0 ≤ 90) ∨ (97 ≤ c0 ∧ c0 ≤ 122) := by
      simpa [py_is_alpha_char] using hc0alpha
    unfold py_lower_char
    rcases hrange with hup | hlo
    · rw [if_pos hup]
      omega
    · rw [if_neg (by omega)]
      omega

theorem filter_tokens_spec_witness :
    3 ≤ (strWord "hello").length ∧ (strWord "hello").length ≤ 12 :=
  ⟨(filter_tokens_spec [strWord "Hello", strWord "ab", strWord "x1y"]
      (strWord "hello") (by decide)).1,
   (filter_tokens_spec [strWord "Hello", strWord "ab", strWord "x1y"]
      (strWord "hello") (by decide)).2.1⟩
